/-
Verification of the frame-reconstruction and symmetry-compositing core of
koishi-plugin-symmetry (src/index.tsx), as a shallow embedding in Lean 4.

Byte buffers (JS `Uint8ClampedArray`) are modelled as `List Nat`.  The
typed-array primitives used by the source are modelled faithfully:
`set(src, offset)` throws a RangeError when the write would extend past the
end of the target (modelled as `Option`, `none` = thrown RangeError);
`fill(0, s, e)` clamps to the buffer; `subarray(s, e)` clamps and yields the
in-range view.  Stateful loops become explicit state passing.
-/
import Mathlib

namespace Symmetry

/-- Model of `Uint8ClampedArray.prototype.fill(0, s, e)`: zero the indices in
`[s, e)` that exist, leave everything else; never fails. -/
def jsFill0 (t : List Nat) (s e : Nat) : List Nat :=
  List.ofFn (fun i : Fin t.length =>
    if s ≤ i.1 ∧ i.1 < e then 0 else t.getD i.1 0)

/-- Model of `Uint8ClampedArray.prototype.set(src, offset)`: write `src` at
`offset`; `none` models the RangeError thrown when the write would extend past
the end of the target. -/
def jsSet (t src : List Nat) (offset : Nat) : Option (List Nat) :=
  if offset + src.length ≤ t.length then
    some (List.ofFn (fun i : Fin t.length =>
      if offset ≤ i.1 ∧ i.1 < offset + src.length then src.getD (i.1 - offset) 0
      else t.getD i.1 0))
  else none

/-- Model of `Uint8ClampedArray.prototype.subarray(s, e)` (with `s ≤ e`):
the view of indices `[s, min e length)`. -/
def jsSubarray (t : List Nat) (s e : Nat) : List Nat :=
  (t.drop s).take (e - s)

/-- `type FrameDims = { left; top; width; height }` from the source. -/
structure FrameDims where
  left : Nat
  top : Nat
  width : Nat
  height : Nat
deriving DecidableEq, Repr

/-- `type DecodedFrame` from the source: `delay`, optional `disposalType`,
`dims`, and the patch byte buffer. -/
structure DecodedFrame where
  delay : Int
  disposalType : Option Nat
  dims : FrameDims
  patch : List Nat
deriving DecidableEq, Repr

/-- One emitted full frame of `buildFullFrames`: `{ data, delay }`. -/
structure ResolvedFrame where
  data : List Nat
  delay : Int
deriving DecidableEq, Repr

/-- Byte offset of row `y` of a region: `((dims.top + y) * width + dims.left) * 4`. -/
def rowOff (dims : FrameDims) (width y : Nat) : Nat :=
  ((dims.top + y) * width + dims.left) * 4

/-- The row loop of `clearRectPixels`: rows `y, y+1, ...` (`rows` of them). -/
def clearRectFrom (dims : FrameDims) (width : Nat) : Nat → Nat → List Nat → List Nat
  | 0, _, target => target
  | rows + 1, y, target =>
      let offset := ((dims.top + y) * width + dims.left) * 4
      clearRectFrom dims width rows (y + 1)
        (jsFill0 target offset (offset + dims.width * 4))

/-- `clearRectPixels(target, dims, width)` from the source: for each row of the
region, zero-fill `dims.width * 4` bytes at the row offset. -/
def clearRectPixels (target : List Nat) (dims : FrameDims) (width : Nat) : List Nat :=
  clearRectFrom dims width dims.height 0 target

/-- The row loop of `applyPatch`: rows `y, y+1, ...` (`rows` of them); each row
copies `patch.subarray(y*rowSize, y*rowSize + rowSize)` to the row offset.
`none` models the RangeError thrown by the underlying `set`. -/
def applyPatchFrom (patch : List Nat) (dims : FrameDims) (width : Nat) :
    Nat → Nat → List Nat → Option (List Nat)
  | 0, _, target => some target
  | rows + 1, y, target => do
      let rowSize := dims.width * 4
      let srcOffset := y * rowSize
      let destOffset := ((dims.top + y) * width + dims.left) * 4
      let t ← jsSet target (jsSubarray patch srcOffset (srcOffset + rowSize)) destOffset
      applyPatchFrom patch dims width rows (y + 1) t

/-- `applyPatch(target, patch, dims, width)` from the source. -/
def applyPatch (target patch : List Nat) (dims : FrameDims) (width : Nat) :
    Option (List Nat) :=
  applyPatchFrom patch dims width dims.height 0 target

/-- The reconstruction state threaded through `buildFullFrames`'s loop:
`canvas`, `prevDisposal`, `prevRect`, `restoreSnapshot`. -/
structure RecState where
  canvas : List Nat
  prevDisposal : Nat
  prevRect : Option FrameDims
  restoreSnapshot : Option (List Nat)
deriving DecidableEq, Repr

/-- Initial state of `buildFullFrames`: zero canvas of `width*height*4` bytes,
`prevDisposal = 0`, no previous rect, no snapshot. -/
def initState (width height : Nat) : RecState :=
  ⟨List.replicate (width * height * 4) 0, 0, none, none⟩

/-- The disposal-apply step at the top of `buildFullFrames`'s loop body:
`if (prevDisposal === 2 && prevRect) clearRectPixels(canvas, prevRect, width);
else if (prevDisposal === 3 && restoreSnapshot) canvas.set(restoreSnapshot);`.
Returns the canvas after disposal (`none` = RangeError from `set`). -/
def applyDisposal (s : RecState) (width : Nat) : Option (List Nat) :=
  if s.prevDisposal = 2 ∧ s.prevRect ≠ none then
    some (clearRectPixels s.canvas (s.prevRect.getD ⟨0, 0, 0, 0⟩) width)
  else if s.prevDisposal = 3 ∧ s.restoreSnapshot ≠ none then
    jsSet s.canvas (s.restoreSnapshot.getD []) 0
  else
    some s.canvas

/-- One iteration of `buildFullFrames`'s `for (const frame of frames)` loop:
apply pending disposal, snapshot if the current frame's own disposal is 3,
composite the patch (full-canvas fast path or `applyPatch`), emit a copy of
the canvas with the frame's delay, and carry state forward. -/
def stepFrame (width height : Nat) (s : RecState) (frame : DecodedFrame) :
    Option (RecState × ResolvedFrame) := do
  let patch := frame.patch
  let canvas1 ← applyDisposal s width
  let nextRestore : Option (List Nat) :=
    if frame.disposalType = some 3 then some canvas1 else none
  let canvas2 ←
    if patch.length = width * height * 4 then
      jsSet canvas1 patch 0
    else
      applyPatch canvas1 patch frame.dims width
  some (⟨canvas2, frame.disposalType.getD 0, some frame.dims, nextRestore⟩,
        ⟨canvas2, frame.delay⟩)

/-- The frame loop of `buildFullFrames`, collecting the emitted frames. -/
def buildFramesGo (width height : Nat) (s : RecState) :
    List DecodedFrame → Option (List ResolvedFrame)
  | [] => some []
  | f :: rest => do
      let (s1, out) ← stepFrame width height s f
      let outs ← buildFramesGo width height s1 rest
      some (out :: outs)

/-- `buildFullFrames(frames, width, height)` from the source. -/
def buildFullFrames (frames : List DecodedFrame) (width height : Nat) :
    Option (List ResolvedFrame) :=
  buildFramesGo width height (initState width height) frames

/-! ### Mirror compositor (`drawSymmetry`) and the drawing-surface model -/

/-- An RGBA pixel value. -/
abbrev Pix := Nat × Nat × Nat × Nat

/-- Model of a 2D drawing surface (a canvas or a loaded image): a size plus a
total pixel map (values at coordinates outside the size are ghost values). -/
structure Surface where
  width : Nat
  height : Nat
  pix : Nat → Nat → Pix

/-- Destination-to-source coordinate map of one axis of the 9-argument canvas
`drawImage(s, s0, sLen ↦ d0, dLen)` with pixel-center sampling: destination
pixel `x` lies in the (sign-normalized) destination interval and samples the
source at the mapped coordinate; a negative `dLen` flips the axis.  `none`
means `x` is outside the destination interval. -/
def mapCoord (s0 sLen d0 : Nat) (dLen : Int) (x : Nat) : Option Nat :=
  if 0 < dLen then
    if d0 ≤ x ∧ (x : Int) < (d0 : Int) + dLen then
      some (s0 + (x - d0) * sLen / dLen.toNat)
    else none
  else if dLen < 0 then
    if (d0 : Int) + dLen ≤ (x : Int) ∧ x < d0 then
      some (s0 + (d0 - 1 - x) * sLen / (-dLen).toNat)
    else none
  else none

/-- Model of `CanvasRenderingContext2D.drawImage(source, sx, sy, sw, sh, dx,
dy, dw, dh)`: pixels inside the destination rectangle take the mapped source
pixel, all others keep the destination's previous value.  (The source
rectangles used by `drawSymmetry` are within bounds, so spec-mandated source
clipping never fires and is not modelled.) -/
def drawImage (canvasCtx source : Surface) (sx sy sw sh dx dy : Nat)
    (dw dh : Int) : Surface :=
  { canvasCtx with
    pix := fun x y =>
      match mapCoord sx sw dx dw x, mapCoord sy sh dy dh y with
      | some u, some v => source.pix u v
      | _, _ => canvasCtx.pix x y }

/-- Model of `CanvasRenderingContext2D.clearRect(x0, y0, w, h)`: pixels in the
rectangle become fully transparent. -/
def clearRect (canvasCtx : Surface) (x0 y0 w h : Nat) : Surface :=
  { canvasCtx with
    pix := fun x y =>
      if x0 ≤ x ∧ x < x0 + w ∧ y0 ≤ y ∧ y < y0 + h then (0, 0, 0, 0)
      else canvasCtx.pix x y }

/-- `type Direction` from the source. -/
inductive Direction where
  | left
  | right
  | up
  | down
  | both
deriving DecidableEq, Repr

/-- `drawSymmetry(canvasCtx, source, width, height, direction)` from the
source, with `Math.ceil(width / 2) = (width + 1) / 2` in `Nat`. -/
def drawSymmetry (canvasCtx source : Surface) (width height : Nat)
    (direction : Direction) : Surface :=
  let c0 := clearRect canvasCtx 0 0 width height
  match direction with
  | .left =>
      let baseWidth := (width + 1) / 2
      let c1 := drawImage c0 source 0 0 baseWidth height 0 0
        (baseWidth : Int) (height : Int)
      drawImage c1 source 0 0 baseWidth height width 0
        (-(baseWidth : Int)) (height : Int)
  | .right =>
      let baseWidth := (width + 1) / 2
      let srcX := width - baseWidth
      let c1 := drawImage c0 source srcX 0 baseWidth height srcX 0
        (baseWidth : Int) (height : Int)
      drawImage c1 source srcX 0 baseWidth height baseWidth 0
        (-(baseWidth : Int)) (height : Int)
  | .up =>
      let baseHeight := (height + 1) / 2
      let c1 := drawImage c0 source 0 0 width baseHeight 0 0
        (width : Int) (baseHeight : Int)
      drawImage c1 source 0 0 width baseHeight 0 height
        (width : Int) (-(baseHeight : Int))
  | .down =>
      let baseHeight := (height + 1) / 2
      let srcY := height - baseHeight
      let c1 := drawImage c0 source 0 srcY width baseHeight 0 srcY
        (width : Int) (baseHeight : Int)
      drawImage c1 source 0 srcY width baseHeight 0 baseHeight
        (width : Int) (-(baseHeight : Int))
  | .both =>
      let baseWidth := (width + 1) / 2
      let baseHeight := (height + 1) / 2
      let c1 := drawImage c0 source 0 0 baseWidth baseHeight 0 0
        (baseWidth : Int) (baseHeight : Int)
      let c2 := drawImage c1 source 0 0 baseWidth baseHeight width 0
        (-(baseWidth : Int)) (baseHeight : Int)
      let c3 := drawImage c2 source 0 0 baseWidth baseHeight 0 height
        (baseWidth : Int) (-(baseHeight : Int))
      drawImage c3 source 0 0 baseWidth baseHeight width height
        (-(baseWidth : Int)) (-(baseHeight : Int))

/-! ### Static image pipeline (`getImageSize`, `generateStatic`) -/

/-- Errors of the static pipeline: `invalidImage` models the
`"invalid image size"` throw of `getImageSize`; `decodeError` models a failure
of the external `loadImage` collaborator, carried through unchanged. -/
inductive StaticError where
  | invalidImage
  | decodeError (cause : Nat)
deriving DecidableEq, Repr

/-- The size-bearing fields of a loaded image object, plus its pixel content
as a surface (the external decoder's output). -/
structure ImageLike where
  width : Option Nat
  height : Option Nat
  naturalWidth : Option Nat
  naturalHeight : Option Nat
  content : Surface

/-- `getImageSize(image)` from the source:
`naturalWidth ?? width ?? 0` / `naturalHeight ?? height ?? 0`, throwing
`"invalid image size"` (modelled as `none`) when either is falsy (zero). -/
def getImageSize (image : ImageLike) : Option (Nat × Nat) :=
  let width := image.naturalWidth.getD (image.width.getD 0)
  let height := image.naturalHeight.getD (image.height.getD 0)
  if width = 0 ∨ height = 0 then none else some (width, height)

/-- A freshly created, fully transparent canvas of the given size. -/
def blankCanvas (width height : Nat) : Surface :=
  ⟨width, height, fun _ _ => (0, 0, 0, 0)⟩

/-- `generateStatic(ctx, buffer, direction)` from the source, with the
external decode (`loadImageFromBuffer`) modelled by its result `loaded`
(`.error` = the decoder threw) and the final PNG encode modelled as returning
the drawn canvas itself: validate the size, create a canvas of that size, and
draw the mirrored image onto it. -/
def generateStatic (loaded : Except StaticError ImageLike)
    (direction : Direction) : Except StaticError Surface := do
  let image ← loaded
  match getImageSize image with
  | none => throw .invalidImage
  | some (width, height) =>
      let canvas := blankCanvas width height
      pure (drawSymmetry canvas image.content width height direction)

/-! ### Animation pipeline frame loop (`generateGif`) -/

/-- `putImageData` of a full-canvas RGBA byte buffer into a `width × height`
surface: pixel `(x, y)` holds the 4 bytes at offset `(y*width + x)*4`. -/
def surfOfData (data : List Nat) (width height : Nat) : Surface :=
  ⟨width, height, fun x y =>
    (data.getD ((y * width + x) * 4) 0,
     data.getD ((y * width + x) * 4 + 1) 0,
     data.getD ((y * width + x) * 4 + 2) 0,
     data.getD ((y * width + x) * 4 + 3) 0)⟩

/-- The per-frame delay handed to the encoder:
`Math.max(0, Math.round((frame.delay || 0) * 10))` (the delay is an integer,
so `Math.round` is the identity). -/
def frameDelayMs (delay : Int) : Int :=
  max 0 ((if delay = 0 then 0 else delay) * 10)

/-- The `for (const frame of fullFrames)` loop of `generateGif`: load the
frame bytes into the scratch surface, mirror into the (reused) output surface,
and hand `(output surface, delayMs)` to the encoder in order.  The returned
list is the encoder's received frame sequence. -/
def encodeLoop (width height : Nat) (direction : Direction)
    (outputCtx : Surface) : List ResolvedFrame → List (Surface × Int)
  | [] => []
  | frame :: rest =>
      let frameSurf := surfOfData frame.data width height
      let out := drawSymmetry outputCtx frameSurf width height direction
      (out, frameDelayMs frame.delay) :: encodeLoop width height direction out rest

/-! ### Byte-buffer lemmas -/

lemma length_jsFill0 (t : List Nat) (s e : Nat) :
    (jsFill0 t s e).length = t.length := by
  simp [jsFill0]

lemma getD_jsFill0_in (t : List Nat) {s e i : Nat} (hs : s ≤ i) (he : i < e) :
    (jsFill0 t s e).getD i 0 = 0 := by
  by_cases hi : i < t.length
  · rw [List.getD_eq_getElem _ _ (by simpa [length_jsFill0] using hi)]
    simp [jsFill0, List.getElem_ofFn, hs, he]
  · exact List.getD_eq_default _ _ (by simp [length_jsFill0]; omega)

lemma getD_jsFill0_out (t : List Nat) {s e i : Nat} (h : ¬(s ≤ i ∧ i < e)) :
    (jsFill0 t s e).getD i 0 = t.getD i 0 := by
  by_cases hi : i < t.length
  · rw [List.getD_eq_getElem _ _ (by simpa [length_jsFill0] using hi),
      List.getD_eq_getElem _ _ hi]
    simp [jsFill0, List.getElem_ofFn, h, List.getD_eq_getElem _ _ hi]
  · rw [List.getD_eq_default _ _ (by simp [length_jsFill0]; omega),
      List.getD_eq_default _ _ (by omega)]

lemma jsSet_eq_some {t src : List Nat} {offset : Nat}
    (h : offset + src.length ≤ t.length) :
    jsSet t src offset = some (List.ofFn (fun i : Fin t.length =>
      if offset ≤ i.1 ∧ i.1 < offset + src.length then src.getD (i.1 - offset) 0
      else t.getD i.1 0)) := by
  simp [jsSet, h]

lemma jsSet_length {t src R : List Nat} {offset : Nat}
    (h : jsSet t src offset = some R) : R.length = t.length := by
  unfold jsSet at h
  split at h
  · cases h; simp
  · cases h

lemma jsSet_bound {t src R : List Nat} {offset : Nat}
    (h : jsSet t src offset = some R) : offset + src.length ≤ t.length := by
  unfold jsSet at h
  split at h
  · assumption
  · cases h

lemma getD_jsSet_in {t src R : List Nat} {offset i : Nat}
    (h : jsSet t src offset = some R) (h1 : offset ≤ i)
    (h2 : i < offset + src.length) :
    R.getD i 0 = src.getD (i - offset) 0 := by
  have hb := jsSet_bound h
  rw [jsSet_eq_some hb] at h
  cases h
  rw [List.getD_eq_getElem _ _ (by simp; omega)]
  simp [List.getElem_ofFn, h1, h2]

lemma getD_jsSet_out {t src R : List Nat} {offset i : Nat}
    (h : jsSet t src offset = some R) (hout : ¬(offset ≤ i ∧ i < offset + src.length)) :
    R.getD i 0 = t.getD i 0 := by
  have hb := jsSet_bound h
  rw [jsSet_eq_some hb] at h
  cases h
  by_cases hi : i < t.length
  · rw [List.getD_eq_getElem _ _ (by simpa using hi), List.getD_eq_getElem _ _ hi]
    simp [List.getElem_ofFn, hout, List.getD_eq_getElem _ _ hi]
  · rw [List.getD_eq_default _ _ (by simp; omega), List.getD_eq_default _ _ (by omega)]

lemma jsSet_zero_full {t src : List Nat} (h : src.length = t.length) :
    jsSet t src 0 = some src := by
  rw [jsSet_eq_some (by omega)]
  congr 1
  apply List.ext_getElem
  · simp [h]
  · intro i h1 h2
    simp only [List.getElem_ofFn]
    rw [if_pos (by omega)]
    simpa using List.getD_eq_getElem src 0 (by omega)

lemma length_jsSubarray (t : List Nat) (s e : Nat) :
    (jsSubarray t s e).length = min (e - s) (t.length - s) := by
  simp [jsSubarray]

lemma getD_jsSubarray (t : List Nat) {s e j : Nat} (hj : j < e - s) :
    (jsSubarray t s e).getD j 0 = t.getD (s + j) 0 := by
  by_cases hjl : j < (jsSubarray t s e).length
  · rw [List.getD_eq_getElem _ _ hjl,
      List.getD_eq_getElem _ _ (by rw [length_jsSubarray] at hjl; omega)]
    simp only [jsSubarray]
    rw [List.getElem_take, List.getElem_drop]
  · rw [List.getD_eq_default _ _ (by omega),
      List.getD_eq_default _ _ (by rw [length_jsSubarray] at hjl; omega)]

/-! ### Row-loop lemmas -/

lemma rowOff_mono (dims : FrameDims) (width : Nat)
    (hw : dims.left + dims.width ≤ width) {y y' : Nat} (h : y < y') :
    rowOff dims width y + dims.width * 4 ≤ rowOff dims width y' := by
  have h1 : (dims.top + y + 1) * width ≤ (dims.top + y') * width :=
    Nat.mul_le_mul_right _ (by omega)
  have h2 : (dims.top + y + 1) * width = (dims.top + y) * width + width :=
    Nat.succ_mul _ _
  unfold rowOff
  omega

lemma rowOff_bound (dims : FrameDims) (width : Nat)
    (hw : dims.left + dims.width ≤ width) {y : Nat} (h : y < dims.height) :
    rowOff dims width y + dims.width * 4 ≤ (dims.top + dims.height) * width * 4 := by
  have h1 : (dims.top + y + 1) * width ≤ (dims.top + dims.height) * width :=
    Nat.mul_le_mul_right _ (by omega)
  have h2 : (dims.top + y + 1) * width = (dims.top + y) * width + width :=
    Nat.succ_mul _ _
  unfold rowOff
  omega

/-- Full characterization of the `clearRectPixels` row loop: its result keeps
the target's length, is zero on every byte of the processed rows, and agrees
with the target on every byte outside them. -/
lemma clearRectFrom_spec (dims : FrameDims) (width : Nat)
    (hw : dims.left + dims.width ≤ width) :
    ∀ (rows y0 : Nat) (target : List Nat),
      (clearRectFrom dims width rows y0 target).length = target.length ∧
      (∀ y, y0 ≤ y → y < y0 + rows → ∀ j, j < dims.width * 4 →
        (clearRectFrom dims width rows y0 target).getD (rowOff dims width y + j) 0 = 0) ∧
      (∀ i, (∀ y, y0 ≤ y → y < y0 + rows →
          ¬(rowOff dims width y ≤ i ∧ i < rowOff dims width y + dims.width * 4)) →
        (clearRectFrom dims width rows y0 target).getD i 0 = target.getD i 0) := by
  intro rows
  induction rows with
  | zero =>
      intro y0 target
      exact ⟨rfl, fun y h1 h2 => by omega, fun i _ => rfl⟩
  | succ n ih =>
      intro y0 target
      have hstep : clearRectFrom dims width (n + 1) y0 target =
          clearRectFrom dims width n (y0 + 1)
            (jsFill0 target (rowOff dims width y0)
              (rowOff dims width y0 + dims.width * 4)) := rfl
      set t1 := jsFill0 target (rowOff dims width y0)
        (rowOff dims width y0 + dims.width * 4) with ht1
      obtain ⟨ihlen, ihin, ihout⟩ := ih (y0 + 1) t1
      rw [hstep]
      refine ⟨by rw [ihlen, ht1, length_jsFill0], ?_, ?_⟩
      · intro y hy1 hy2 j hj
        rcases Nat.lt_or_ge y0 y with hgt | hle
        · exact ihin y (by omega) (by omega) j hj
        · have hy0 : y = y0 := by omega
          subst hy0
          rw [ihout _ ?_]
          · exact getD_jsFill0_in target (Nat.le_add_right _ _) (by omega)
          · intro y' h1 h2
            have := rowOff_mono dims width hw (show y < y' by omega)
            omega
      · intro i hout
        rw [ihout i (fun y h1 h2 => hout y (by omega) (by omega))]
        exact getD_jsFill0_out target (hout y0 le_rfl (by omega))

/-- Full characterization of the `applyPatch` row loop when the region fits in
the canvas and the patch holds a full region worth of bytes: it succeeds, keeps
the target's length, copies each processed row from the patch, and agrees with
the target on every byte outside the processed rows. -/
lemma applyPatchFrom_spec (patch : List Nat) (dims : FrameDims) (width : Nat)
    (hw : dims.left + dims.width ≤ width)
    (hp : dims.height * (dims.width * 4) ≤ patch.length) :
    ∀ (rows y0 : Nat) (target : List Nat),
      y0 + rows ≤ dims.height →
      (dims.top + dims.height) * width * 4 ≤ target.length →
      ∃ R, applyPatchFrom patch dims width rows y0 target = some R ∧
        R.length = target.length ∧
        (∀ y, y0 ≤ y → y < y0 + rows → ∀ j, j < dims.width * 4 →
          R.getD (rowOff dims width y + j) 0 =
            patch.getD (y * (dims.width * 4) + j) 0) ∧
        (∀ i, (∀ y, y0 ≤ y → y < y0 + rows →
            ¬(rowOff dims width y ≤ i ∧ i < rowOff dims width y + dims.width * 4)) →
          R.getD i 0 = target.getD i 0) := by
  intro rows
  induction rows with
  | zero =>
      intro y0 target _ _
      exact ⟨target, rfl, rfl, fun y h1 h2 => by omega, fun i _ => rfl⟩
  | succ n ih =>
      intro y0 target hrows htlen
      have hrowlen : (y0 + 1) * (dims.width * 4) ≤ patch.length :=
        le_trans (Nat.mul_le_mul_right _ (by omega)) hp
      have hsucc : (y0 + 1) * (dims.width * 4) =
          y0 * (dims.width * 4) + dims.width * 4 := Nat.succ_mul _ _
      have hsublen : (jsSubarray patch (y0 * (dims.width * 4))
          (y0 * (dims.width * 4) + dims.width * 4)).length = dims.width * 4 := by
        rw [length_jsSubarray]
        omega
      have hbound : rowOff dims width y0 + dims.width * 4 ≤ target.length :=
        le_trans (rowOff_bound dims width hw (by omega)) htlen
      obtain ⟨t1, ht1⟩ : ∃ t1, jsSet target
          (jsSubarray patch (y0 * (dims.width * 4))
            (y0 * (dims.width * 4) + dims.width * 4))
          (rowOff dims width y0) = some t1 :=
        ⟨_, jsSet_eq_some (by rw [hsublen]; omega)⟩
      have ht1len : t1.length = target.length := jsSet_length ht1
      obtain ⟨R, hR, hRlen, hRin, hRout⟩ := ih (y0 + 1) t1 (by omega) (by omega)
      have hstep : applyPatchFrom patch dims width (n + 1) y0 target =
          (jsSet target
            (jsSubarray patch (y0 * (dims.width * 4))
              (y0 * (dims.width * 4) + dims.width * 4))
            (rowOff dims width y0)).bind
            (applyPatchFrom patch dims width n (y0 + 1)) := rfl
      refine ⟨R, ?_, by omega, ?_, ?_⟩
      · rw [hstep, ht1]
        exact hR
      · intro y hy1 hy2 j hj
        rcases Nat.lt_or_ge y0 y with hgt | hle
        · exact hRin y (by omega) (by omega) j hj
        · have hy0 : y = y0 := by omega
          subst hy0
          rw [hRout _ ?_]
          · rw [getD_jsSet_in ht1 (Nat.le_add_right _ _) (by omega)]
            have : rowOff dims width y + j - rowOff dims width y = j := by omega
            rw [this, getD_jsSubarray patch (by omega)]
          · intro y' h1 h2
            have := rowOff_mono dims width hw (show y < y' by omega)
            omega
      · intro i hout
        rw [hRout i (fun y h1 h2 => hout y (by omega) (by omega))]
        refine getD_jsSet_out ht1 ?_
        rw [hsublen]
        exact hout y0 le_rfl (by omega)

/-! ### Reconstruction-state lemmas -/

lemma clearRectFrom_length (dims : FrameDims) (width : Nat) :
    ∀ (rows y0 : Nat) (target : List Nat),
      (clearRectFrom dims width rows y0 target).length = target.length := by
  intro rows
  induction rows with
  | zero => intro y0 target; rfl
  | succ n ih =>
      intro y0 target
      have hstep : clearRectFrom dims width (n + 1) y0 target =
          clearRectFrom dims width n (y0 + 1)
            (jsFill0 target (rowOff dims width y0)
              (rowOff dims width y0 + dims.width * 4)) := rfl
      rw [hstep, ih, length_jsFill0]

lemma applyPatchFrom_length (patch : List Nat) (dims : FrameDims) (width : Nat) :
    ∀ (rows y0 : Nat) (target R : List Nat),
      applyPatchFrom patch dims width rows y0 target = some R →
      R.length = target.length := by
  intro rows
  induction rows with
  | zero => intro y0 target R h; cases h; rfl
  | succ n ih =>
      intro y0 target R h
      have hstep : applyPatchFrom patch dims width (n + 1) y0 target =
          (jsSet target
            (jsSubarray patch (y0 * (dims.width * 4))
              (y0 * (dims.width * 4) + dims.width * 4))
            (rowOff dims width y0)).bind
            (applyPatchFrom patch dims width n (y0 + 1)) := rfl
      rw [hstep] at h
      cases hj : jsSet target
          (jsSubarray patch (y0 * (dims.width * 4))
            (y0 * (dims.width * 4) + dims.width * 4))
          (rowOff dims width y0) with
      | none => rw [hj] at h; cases h
      | some t1 =>
          rw [hj] at h
          simp only [Option.some_bind] at h
          rw [ih _ _ _ h, jsSet_length hj]

lemma applyDisposal_length {s : RecState} {width : Nat} {c1 : List Nat}
    (h : applyDisposal s width = some c1) : c1.length = s.canvas.length := by
  unfold applyDisposal at h
  split at h
  · cases h
    exact clearRectFrom_length _ _ _ _ _
  · split at h
    · exact jsSet_length h
    · cases h; rfl

/-- Inversion of one loop iteration: a successful `stepFrame` decomposes into
a successful disposal-apply, a successful composite, and the recorded carry. -/
lemma stepFrame_inv {width height : Nat} {s : RecState} {f : DecodedFrame}
    {s1 : RecState} {out : ResolvedFrame}
    (h : stepFrame width height s f = some (s1, out)) :
    ∃ c1 c2, applyDisposal s width = some c1 ∧
      (if f.patch.length = width * height * 4 then jsSet c1 f.patch 0
       else applyPatch c1 f.patch f.dims width) = some c2 ∧
      s1 = ⟨c2, f.disposalType.getD 0, some f.dims,
            if f.disposalType = some 3 then some c1 else none⟩ ∧
      out = ⟨c2, f.delay⟩ := by
  unfold stepFrame at h
  cases hd : applyDisposal s width with
  | none => rw [hd] at h; cases h
  | some c1 =>
      rw [hd] at h
      by_cases hp : f.patch.length = width * height * 4
      · cases hc : jsSet c1 f.patch 0 with
        | none => simp [hp, hc] at h
        | some c2 =>
            simp [hp, hc] at h
            exact ⟨c1, c2, rfl, by simp [hp, hc], by simp [← h.1], by simp [← h.2]⟩
      · cases hc : applyPatch c1 f.patch f.dims width with
        | none => simp [hp, hc] at h
        | some c2 =>
            simp [hp, hc] at h
            exact ⟨c1, c2, rfl, by simp [hp, hc], by simp [← h.1], by simp [← h.2]⟩

/-- The canvas length is preserved by one loop iteration. -/
lemma stepFrame_canvas_length {width height : Nat} {s : RecState}
    {f : DecodedFrame} {s1 : RecState} {out : ResolvedFrame}
    (h : stepFrame width height s f = some (s1, out)) :
    s1.canvas.length = s.canvas.length := by
  obtain ⟨c1, c2, hc1, hc2, hs1, _⟩ := stepFrame_inv h
  subst hs1
  show c2.length = s.canvas.length
  rw [← applyDisposal_length hc1]
  split at hc2
  · exact jsSet_length hc2
  · exact applyPatchFrom_length _ _ _ _ _ _ _ hc2

/-! ### Claim C2 -/

/-- Claim C2 (confirmed): when the previous patch's disposal is `RestoreBackground`
(2) with declared region `r` inside the canvas, the disposal-apply step
succeeds and sets exactly the bytes of `r`'s rows to zero (row by row at the
canvas stride), leaving every byte outside those row ranges unchanged. -/
theorem restoreBackground_clears_exact_rect
    (width height : Nat) (s : RecState) (r : FrameDims)
    (hdisp : s.prevDisposal = 2) (hrect : s.prevRect = some r)
    (hlen : s.canvas.length = width * height * 4)
    (hx : r.left + r.width ≤ width) (_hy : r.top + r.height ≤ height) :
    ∃ R, applyDisposal s width = some R ∧
      R.length = width * height * 4 ∧
      (∀ y, y < r.height → ∀ j, j < r.width * 4 →
        R.getD (rowOff r width y + j) 0 = 0) ∧
      (∀ i, (∀ y, y < r.height →
          ¬(rowOff r width y ≤ i ∧ i < rowOff r width y + r.width * 4)) →
        R.getD i 0 = s.canvas.getD i 0) := by
  have happ : applyDisposal s width = some (clearRectPixels s.canvas r width) := by
    simp [applyDisposal, hdisp, hrect]
  obtain ⟨hL, hin, hout⟩ := clearRectFrom_spec r width hx r.height 0 s.canvas
  refine ⟨clearRectPixels s.canvas r width, happ, ?_, ?_, ?_⟩
  · rw [show clearRectPixels s.canvas r width =
      clearRectFrom r width r.height 0 s.canvas from rfl, hL, hlen]
  · intro y hy' j hj
    exact hin y (Nat.zero_le _) (by omega) j hj
  · intro i hi
    exact hout i fun y h1 h2 => hi y (by omega)

theorem restoreBackground_clears_exact_rect_witness :
    ∃ R, applyDisposal ⟨[1, 2, 3, 4], 2, some ⟨0, 0, 1, 1⟩, none⟩ 1 = some R ∧
      R.length = 1 * 1 * 4 ∧
      (∀ y, y < 1 → ∀ j, j < 1 * 4 →
        R.getD (rowOff ⟨0, 0, 1, 1⟩ 1 y + j) 0 = 0) ∧
      (∀ i, (∀ y, y < 1 →
          ¬(rowOff ⟨0, 0, 1, 1⟩ 1 y ≤ i ∧ i < rowOff ⟨0, 0, 1, 1⟩ 1 y + 1 * 4)) →
        R.getD i 0 = ([1, 2, 3, 4] : List Nat).getD i 0) :=
  restoreBackground_clears_exact_rect 1 1 ⟨[1, 2, 3, 4], 2, some ⟨0, 0, 1, 1⟩, none⟩
    ⟨0, 0, 1, 1⟩ rfl rfl (by decide) (by decide) (by decide)

/-! ### Claim C3 -/

/-- Claim C3 (confirmed): one composite step.  If the patch buffer has full-canvas
size the canvas is replaced verbatim by the patch; otherwise (with a
region-sized patch and an in-bounds region) each region row `y` receives
`region.width*4` patch bytes from offset `y*region.width*4` at canvas offset
`((region.top+y)*width+region.left)*4`, all other bytes are untouched; the
emitted `ResolvedFrame` is exactly the resulting canvas with the patch's
delay. -/
theorem composite_step_spec
    (width height : Nat) (s : RecState) (f : DecodedFrame) (c1 : List Nat)
    (hd : applyDisposal s width = some c1)
    (hlen : s.canvas.length = width * height * 4)
    (hx : f.dims.left + f.dims.width ≤ width)
    (hy : f.dims.top + f.dims.height ≤ height)
    (hsize : f.patch.length = width * height * 4 ∨
      f.patch.length = f.dims.width * f.dims.height * 4) :
    ∃ s1 out, stepFrame width height s f = some (s1, out) ∧
      out.data = s1.canvas ∧ out.delay = f.delay ∧
      (f.patch.length = width * height * 4 → s1.canvas = f.patch) ∧
      (f.patch.length ≠ width * height * 4 →
        (∀ y, y < f.dims.height → ∀ j, j < f.dims.width * 4 →
          s1.canvas.getD (rowOff f.dims width y + j) 0 =
            f.patch.getD (y * (f.dims.width * 4) + j) 0) ∧
        (∀ i, (∀ y, y < f.dims.height →
            ¬(rowOff f.dims width y ≤ i ∧
              i < rowOff f.dims width y + f.dims.width * 4)) →
          s1.canvas.getD i 0 = c1.getD i 0)) := by
  have hc1len : c1.length = width * height * 4 := by
    rw [applyDisposal_length hd, hlen]
  by_cases hp : f.patch.length = width * height * 4
  · have hset : jsSet c1 f.patch 0 = some f.patch := jsSet_zero_full (by omega)
    refine ⟨⟨f.patch, f.disposalType.getD 0, some f.dims,
      if f.disposalType = some 3 then some c1 else none⟩, ⟨f.patch, f.delay⟩,
      ?_, rfl, rfl, fun _ => rfl, fun hne => absurd hp hne⟩
    simp [stepFrame, hd, hp, hset]
  · have hp2 : f.patch.length = f.dims.width * f.dims.height * 4 :=
      hsize.resolve_left hp
    have hpp : f.dims.height * (f.dims.width * 4) ≤ f.patch.length := by
      have : f.dims.height * (f.dims.width * 4) =
        f.dims.width * f.dims.height * 4 := by ring
      omega
    have htb : (f.dims.top + f.dims.height) * width * 4 ≤ c1.length := by
      have h1 : (f.dims.top + f.dims.height) * width ≤ height * width :=
        Nat.mul_le_mul_right _ hy
      have h2 : width * height = height * width := Nat.mul_comm _ _
      omega
    obtain ⟨R, hR, hRlen, hRin, hRout⟩ :=
      applyPatchFrom_spec f.patch f.dims width hx hpp f.dims.height 0 c1
        (by omega) htb
    refine ⟨⟨R, f.disposalType.getD 0, some f.dims,
      if f.disposalType = some 3 then some c1 else none⟩, ⟨R, f.delay⟩,
      ?_, rfl, rfl, fun hfull => absurd hfull hp, fun _ => ⟨?_, ?_⟩⟩
    · simp [stepFrame, hd, hp,
        show applyPatch c1 f.patch f.dims width = some R from hR]
    · intro y hy' j hj
      exact hRin y (Nat.zero_le _) (by omega) j hj
    · intro i hi
      exact hRout i fun y h1 h2 => hi y (by omega)

theorem composite_step_spec_witness :
    ∃ s1 out, stepFrame 2 1 (initState 2 1)
        ⟨3, some 0, ⟨1, 0, 1, 1⟩, [9, 9, 9, 9]⟩ = some (s1, out) ∧
      out.data = s1.canvas ∧ out.delay = 3 ∧
      (([9, 9, 9, 9] : List Nat).length = 2 * 1 * 4 → s1.canvas = [9, 9, 9, 9]) ∧
      (([9, 9, 9, 9] : List Nat).length ≠ 2 * 1 * 4 →
        (∀ y, y < 1 → ∀ j, j < 1 * 4 →
          s1.canvas.getD (rowOff ⟨1, 0, 1, 1⟩ 2 y + j) 0 =
            ([9, 9, 9, 9] : List Nat).getD (y * (1 * 4) + j) 0) ∧
        (∀ i, (∀ y, y < 1 →
            ¬(rowOff ⟨1, 0, 1, 1⟩ 2 y ≤ i ∧
              i < rowOff ⟨1, 0, 1, 1⟩ 2 y + 1 * 4)) →
          s1.canvas.getD i 0 = (List.replicate (2 * 1 * 4) 0).getD i 0)) :=
  composite_step_spec 2 1 (initState 2 1) ⟨3, some 0, ⟨1, 0, 1, 1⟩, [9, 9, 9, 9]⟩
    (List.replicate (2 * 1 * 4) 0) (by decide) (by decide) (by decide) (by decide)
    (by decide)

/-! ### Claim C1 -/

/-- Claim C1, counterexample to the claim as stated: with frame A (1×1 red, own
disposal `RestoreToPrevious`) over a transparent canvas, an intervening frame
B (1×1 blue, disposal `None`), and a third frame C that draws nothing, the
pre-A snapshot is `[0,0,0,0]` but the canvas produced by the disposal-apply
step before the next-but-one patch C (visible as C's emitted frame) is B's
blue `[0,0,255,255]`, not the pre-A snapshot: the restore fires before the
next patch B, not before the next-but-one. -/
theorem restoreToPrevious_next_but_one_cex :
    applyDisposal (initState 1 1) 1 = some [0, 0, 0, 0] ∧
    (buildFullFrames
      [⟨1, some 3, ⟨0, 0, 1, 1⟩, [255, 0, 0, 255]⟩,
       ⟨2, some 0, ⟨0, 0, 1, 1⟩, [0, 0, 255, 255]⟩,
       ⟨3, none, ⟨0, 0, 0, 0⟩, []⟩] 1 1).map (List.map ResolvedFrame.data) =
      some [[255, 0, 0, 255], [0, 0, 255, 255], [0, 0, 255, 255]] ∧
    ([0, 0, 255, 255] : List Nat) ≠ [0, 0, 0, 0] := by decide

/-- Claim C1 (amended): if patch A's own disposal is `RestoreToPrevious` (3), the
reconstructor snapshots the canvas exactly as it is immediately before
compositing A (the disposal-applied canvas `c1`), and the disposal-apply step
that runs before the *next* patch (not the next-but-one) returns exactly that
pre-A snapshot, regardless of what A drew. -/
theorem restoreToPrevious_round_trip
    (width height : Nat) (s : RecState) (f : DecodedFrame)
    (s1 : RecState) (out : ResolvedFrame) (c1 : List Nat)
    (hdisp : f.disposalType = some 3)
    (hstep : stepFrame width height s f = some (s1, out))
    (hc1 : applyDisposal s width = some c1) :
    s1.restoreSnapshot = some c1 ∧ applyDisposal s1 width = some c1 := by
  obtain ⟨c1', c2, hc1', hc2, hs1, hout⟩ := stepFrame_inv hstep
  rw [hc1] at hc1'
  injection hc1' with hq
  subst hq
  have hlen12 : c2.length = c1.length := by
    split at hc2
    · exact jsSet_length hc2
    · exact applyPatchFrom_length _ _ _ _ _ _ _ hc2
  subst hs1
  refine ⟨by simp [hdisp], ?_⟩
  rw [show (⟨c2, f.disposalType.getD 0, some f.dims,
      if f.disposalType = some 3 then some c1 else none⟩ : RecState) =
      ⟨c2, 3, some f.dims, some c1⟩ by rw [hdisp]; rfl]
  simp [applyDisposal]
  exact jsSet_zero_full (by omega)

theorem restoreToPrevious_round_trip_witness :
    (⟨[255, 0, 0, 255], 3, some ⟨0, 0, 1, 1⟩, some [0, 0, 0, 0]⟩ :
        RecState).restoreSnapshot = some [0, 0, 0, 0] ∧
    applyDisposal
      (⟨[255, 0, 0, 255], 3, some ⟨0, 0, 1, 1⟩, some [0, 0, 0, 0]⟩ : RecState) 1 =
      some [0, 0, 0, 0] :=
  restoreToPrevious_round_trip 1 1 (initState 1 1)
    ⟨1, some 3, ⟨0, 0, 1, 1⟩, [255, 0, 0, 255]⟩
    ⟨[255, 0, 0, 255], 3, some ⟨0, 0, 1, 1⟩, some [0, 0, 0, 0]⟩
    ⟨[255, 0, 0, 255], 1⟩ [0, 0, 0, 0] rfl (by decide) (by decide)

/-! ### Claim C8 -/

/-- Claim C8 (confirmed): any frame whose own disposal is not `RestoreToPrevious`
(3) carries forward an empty `restoreSnapshot`, so a snapshot taken for an
earlier `RestoreToPrevious` frame can never be applied by the disposal step
of any later frame. -/
theorem stale_snapshot_cleared
    (width height : Nat) (s : RecState) (f : DecodedFrame)
    (s1 : RecState) (out : ResolvedFrame)
    (hdisp : f.disposalType ≠ some 3)
    (hstep : stepFrame width height s f = some (s1, out)) :
    s1.restoreSnapshot = none := by
  obtain ⟨c1, c2, _, _, hs1, _⟩ := stepFrame_inv hstep
  subst hs1
  simp [hdisp]

theorem stale_snapshot_cleared_witness :
    (⟨[9, 9, 9, 9], 0, some ⟨0, 0, 1, 1⟩, none⟩ : RecState).restoreSnapshot =
      none :=
  stale_snapshot_cleared 1 1 (initState 1 1)
    ⟨1, some 0, ⟨0, 0, 1, 1⟩, [9, 9, 9, 9]⟩
    ⟨[9, 9, 9, 9], 0, some ⟨0, 0, 1, 1⟩, none⟩ ⟨[9, 9, 9, 9], 1⟩
    (by decide) (by decide)

/-! ### Claim C10 -/

/-- Claim C10 (confirmed): a frame with absent `disposalType` is treated exactly as
disposal `None` (0): the step computes the same result as with `some 0`, no
snapshot is taken, and the disposal-apply step before the next patch leaves
the canvas untouched. -/
theorem missing_disposal_acts_as_none
    (width height : Nat) (s : RecState) (f : DecodedFrame)
    (hdisp : f.disposalType = none) :
    stepFrame width height s f =
      stepFrame width height s ⟨f.delay, some 0, f.dims, f.patch⟩ ∧
    ∀ s1 out, stepFrame width height s f = some (s1, out) →
      s1.restoreSnapshot = none ∧ applyDisposal s1 width = some s1.canvas := by
  constructor
  · simp [stepFrame, hdisp]
  · intro s1 out hstep
    obtain ⟨c1, c2, hc1, hc2, hs1, houtp⟩ := stepFrame_inv hstep
    subst hs1
    refine ⟨by simp [hdisp], ?_⟩
    rw [show (⟨c2, f.disposalType.getD 0, some f.dims,
        if f.disposalType = some 3 then some c1 else none⟩ : RecState) =
        ⟨c2, 0, some f.dims, none⟩ by rw [hdisp]; rfl]
    simp [applyDisposal]

theorem missing_disposal_acts_as_none_witness :
    (stepFrame 1 1 (initState 1 1) ⟨7, none, ⟨0, 0, 1, 1⟩, [1, 2, 3, 4]⟩ =
      stepFrame 1 1 (initState 1 1) ⟨7, some 0, ⟨0, 0, 1, 1⟩, [1, 2, 3, 4]⟩) ∧
    ((⟨[1, 2, 3, 4], 0, some ⟨0, 0, 1, 1⟩, none⟩ : RecState).restoreSnapshot =
        none ∧
      applyDisposal (⟨[1, 2, 3, 4], 0, some ⟨0, 0, 1, 1⟩, none⟩ : RecState) 1 =
        some [1, 2, 3, 4]) :=
  ⟨(missing_disposal_acts_as_none 1 1 (initState 1 1)
      ⟨7, none, ⟨0, 0, 1, 1⟩, [1, 2, 3, 4]⟩ rfl).1,
   (missing_disposal_acts_as_none 1 1 (initState 1 1)
      ⟨7, none, ⟨0, 0, 1, 1⟩, [1, 2, 3, 4]⟩ rfl).2
     ⟨[1, 2, 3, 4], 0, some ⟨0, 0, 1, 1⟩, none⟩ ⟨[1, 2, 3, 4], 7⟩ (by decide)⟩

/-! ### Claim C4 -/

/-- Claim C4, counterexample to the claim as stated: with `width*height == 0` and a
patch whose empty buffer matches the (degenerate) full-canvas size,
`buildFullFrames` performs no validation, signals no error, and happily
produces a `ResolvedFrame` sequence. -/
theorem no_size_validation_cex :
    buildFullFrames [⟨1, none, ⟨0, 0, 0, 0⟩, []⟩] 0 0 = some [⟨[], 1⟩] ∧
    buildFullFrames [⟨1, none, ⟨0, 0, 0, 0⟩, []⟩] 0 0 ≠ none := by decide

/-- Claim C4 (amended): `buildFullFrames` performs no explicit validation and has no
`MalformedFrame` error; the only failure is the typed-array range error: when
the first patch is not full-canvas sized and its first row write would extend
past the end of the canvas buffer, reconstruction aborts with no frames
produced (writes never land outside the buffer). -/
theorem patch_overflow_aborts
    (width height : Nat) (f : DecodedFrame) (rest : List DecodedFrame)
    (hp : f.patch.length ≠ width * height * 4)
    (hh : 0 < f.dims.height)
    (hover : width * height * 4 <
      rowOff f.dims width 0 + min (f.dims.width * 4) f.patch.length) :
    buildFullFrames (f :: rest) width height = none := by
  obtain ⟨k, hk⟩ : ∃ k, f.dims.height = k + 1 := ⟨f.dims.height - 1, by omega⟩
  have hset : jsSet (List.replicate (width * height * 4) 0)
      (jsSubarray f.patch (0 * (f.dims.width * 4))
        (0 * (f.dims.width * 4) + f.dims.width * 4))
      (rowOff f.dims width 0) = none := by
    unfold jsSet
    rw [if_neg]
    rw [length_jsSubarray, List.length_replicate]
    omega
  have happ : applyPatch (List.replicate (width * height * 4) 0) f.patch
      f.dims width = none := by
    unfold applyPatch
    rw [hk]
    have hstep : applyPatchFrom f.patch f.dims width (k + 1) 0
        (List.replicate (width * height * 4) 0) =
        (jsSet (List.replicate (width * height * 4) 0)
          (jsSubarray f.patch (0 * (f.dims.width * 4))
            (0 * (f.dims.width * 4) + f.dims.width * 4))
          (rowOff f.dims width 0)).bind
          (applyPatchFrom f.patch f.dims width k 1) := rfl
    rw [hstep, hset]
    rfl
  have hdisp0 : applyDisposal (initState width height) width =
      some (List.replicate (width * height * 4) 0) := by
    simp [applyDisposal, initState]
  have hstep0 : stepFrame width height (initState width height) f = none := by
    unfold stepFrame
    rw [hdisp0]
    simp [hp, happ]
  simp [buildFullFrames, buildFramesGo, hstep0]

theorem patch_overflow_aborts_witness :
    buildFullFrames [⟨1, none, ⟨0, 0, 2, 1⟩, [1, 2, 3, 4, 5, 6, 7, 8]⟩] 1 1 =
      none :=
  patch_overflow_aborts 1 1 ⟨1, none, ⟨0, 0, 2, 1⟩, [1, 2, 3, 4, 5, 6, 7, 8]⟩ []
    (by decide) (by decide) (by decide)

/-! ### Mirror compositor lemmas -/

/-- Unscaled positive-width axis map: an exact copy of the source interval. -/
lemma mapCoord_pos_self (s0 len d0 x : Nat) (hlen : 0 < len) :
    mapCoord s0 len d0 (len : Int) x =
      if d0 ≤ x ∧ x < d0 + len then some (s0 + (x - d0)) else none := by
  unfold mapCoord
  rw [if_pos (by exact_mod_cast hlen)]
  have hcond : (d0 ≤ x ∧ (x : Int) < (d0 : Int) + (len : Int)) ↔
      (d0 ≤ x ∧ x < d0 + len) := by omega
  by_cases h : d0 ≤ x ∧ x < d0 + len
  · rw [if_pos (hcond.mpr h), if_pos h, Int.toNat_ofNat,
      Nat.mul_div_cancel _ hlen]
  · rw [if_neg (fun hc => h (hcond.mp hc)), if_neg h]

/-- Unscaled negative-width axis map: an exact flipped copy of the source
interval, destination pixel `x` sampling source offset `d0 - 1 - x`. -/
lemma mapCoord_neg_self (s0 len d0 x : Nat) (hlen : 0 < len) :
    mapCoord s0 len d0 (-(len : Int)) x =
      if d0 - len ≤ x ∧ x < d0 then some (s0 + (d0 - 1 - x)) else none := by
  unfold mapCoord
  rw [if_neg (by omega), if_pos (by omega)]
  have hcond : ((d0 : Int) + -(len : Int) ≤ (x : Int) ∧ x < d0) ↔
      (d0 - len ≤ x ∧ x < d0) := by omega
  by_cases h : d0 - len ≤ x ∧ x < d0
  · rw [if_pos (hcond.mpr h), if_pos h, neg_neg, Int.toNat_ofNat,
      Nat.mul_div_cancel _ hlen]
  · rw [if_neg (fun hc => h (hcond.mp hc)), if_neg h]

/-- Pixel-level characterization of `drawSymmetry` for direction `left`:
inside the flipped placement (columns `[W - ceil(W/2), W)`, drawn last) the
output samples the source at the reflected column `W - 1 - x`; elsewhere it
keeps the base copy of the source column `x`. -/
lemma drawSymmetry_left_pix (c s : Surface) (W H x y : Nat)
    (hx : x < W) (hy : y < H) :
    (drawSymmetry c s W H .left).pix x y =
      if W - (W + 1) / 2 ≤ x then s.pix (W - 1 - x) y else s.pix x y := by
  have hbw : 0 < (W + 1) / 2 := by omega
  have hH : 0 < H := by omega
  have hform : (drawSymmetry c s W H .left).pix x y =
      match mapCoord 0 ((W + 1) / 2) W (-(((W + 1) / 2 : Nat) : Int)) x,
            mapCoord 0 H 0 (H : Int) y with
      | some u, some v => s.pix u v
      | _, _ =>
        (match mapCoord 0 ((W + 1) / 2) 0 (((W + 1) / 2 : Nat) : Int) x,
               mapCoord 0 H 0 (H : Int) y with
         | some u, some v => s.pix u v
         | _, _ => (clearRect c 0 0 W H).pix x y) := rfl
  rw [hform, mapCoord_neg_self 0 ((W + 1) / 2) W x hbw,
      mapCoord_pos_self 0 H 0 y hH,
      mapCoord_pos_self 0 ((W + 1) / 2) 0 x hbw,
      if_pos (show 0 ≤ y ∧ y < 0 + H by omega)]
  by_cases hcase : W - (W + 1) / 2 ≤ x
  · rw [if_pos ⟨hcase, hx⟩, if_pos hcase]
    simp
  · rw [if_neg (by omega), if_neg hcase,
      if_pos (show 0 ≤ x ∧ x < 0 + (W + 1) / 2 by omega)]
    simp

/-! ### Claim C6 -/

/-- Claim C6 (confirmed): mirror reflection law for direction `left`: for every
source and destination and every `x` in the base half (`x < ceil(W/2)`) and
row `y < H`, the output pixel at the reflected column `W-1-x` equals the
output pixel at `x`. -/
theorem mirror_reflection_law (c s : Surface) (W H x y : Nat)
    (hx : x < (W + 1) / 2) (hy : y < H) :
    (drawSymmetry c s W H .left).pix (W - 1 - x) y =
      (drawSymmetry c s W H .left).pix x y := by
  rw [drawSymmetry_left_pix c s W H (W - 1 - x) y (by omega) hy,
      drawSymmetry_left_pix c s W H x y (by omega) hy]
  by_cases hcase : W - (W + 1) / 2 ≤ x
  · rw [if_pos (by omega), if_pos hcase]
    have h1 : W - 1 - (W - 1 - x) = x := by omega
    have h2 : W - 1 - x = x := by omega
    rw [h1, h2]
  · rw [if_pos (by omega), if_neg hcase]
    have h1 : W - 1 - (W - 1 - x) = x := by omega
    rw [h1]

theorem mirror_reflection_law_witness :
    (drawSymmetry (⟨3, 1, fun _ _ => (9, 9, 9, 9)⟩ : Surface)
        (⟨3, 1, fun x _ => (x + 1, 0, 0, 0)⟩ : Surface) 3 1 .left).pix
      (3 - 1 - 1) 0 =
    (drawSymmetry (⟨3, 1, fun _ _ => (9, 9, 9, 9)⟩ : Surface)
        (⟨3, 1, fun x _ => (x + 1, 0, 0, 0)⟩ : Surface) 3 1 .left).pix 1 0 :=
  mirror_reflection_law ⟨3, 1, fun _ _ => (9, 9, 9, 9)⟩
    ⟨3, 1, fun x _ => (x + 1, 0, 0, 0)⟩ 3 1 1 0 (by decide) (by decide)

/-! ### Claim C5 -/

/-- Claim C5, counterexample to the claim as stated: for the 3×1 source row
`[A, B, C] = [(1,..), (2,..), (3,..)]` mirrored `left`, output column 2 is
derived from `A` (source column 0), not from `B` as the claim asserts: the
flipped copy is an unscaled reflection, so the output row is `[A, B, A]`, not
`[A, B, B]`. -/
theorem odd_mirror_seam_cex :
    (drawSymmetry (⟨3, 1, fun _ _ => (9, 9, 9, 9)⟩ : Surface)
        (⟨3, 1, fun x _ => (x + 1, 0, 0, 0)⟩ : Surface) 3 1 .left).pix 2 0 ≠
      (⟨3, 1, fun x _ => (x + 1, 0, 0, 0)⟩ : Surface).pix 1 0 := by decide

/-- Claim C5 (amended): mirroring a 3×1 row `[A, B, C]` in direction `left` takes
base `[A, B]` (`ceil(3/2) = 2`); output positions 0–1 are `[A, B]`, and the
flipped copy is an unscaled reflection placed over columns 1–2, so column 1
stays `B` (the shared seam) and column 2 is `A` — the output row is
`[A, B, A]`, with no gap and reads only from the in-bounds base columns 0–1. -/
theorem odd_mirror_seam (c s : Surface) :
    (drawSymmetry c s 3 1 .left).pix 0 0 = s.pix 0 0 ∧
    (drawSymmetry c s 3 1 .left).pix 1 0 = s.pix 1 0 ∧
    (drawSymmetry c s 3 1 .left).pix 2 0 = s.pix 0 0 :=
  ⟨rfl, rfl, rfl⟩

/-! ### Claim C9 -/

lemma getImageSize_pos {img : ImageLike} {w h : Nat}
    (hg : getImageSize img = some (w, h)) : 0 < w ∧ 0 < h := by
  simp only [getImageSize] at hg
  split at hg
  · cases hg
  · rename_i hcond
    simp only [Option.some.injEq, Prod.mk.injEq] at hg
    omega

lemma generateStatic_ok (img : ImageLike) (direction : Direction) :
    generateStatic (.ok img) direction =
      match getImageSize img with
      | none => .error .invalidImage
      | some (w, h) =>
          .ok (drawSymmetry (blankCanvas w h) img.content w h direction) := rfl

lemma drawSymmetry_dims (c s : Surface) (W H : Nat) (d : Direction) :
    (drawSymmetry c s W H d).width = c.width ∧
    (drawSymmetry c s W H d).height = c.height := by
  cases d <;> exact ⟨rfl, rfl⟩

/-- Claim C9 (confirmed): the static pipeline rejects images whose effective decoded
width or height is zero with `invalidImage` (the mirroring step is never
reached, so no output surface is produced), propagates decode failures
unchanged, and any surface it does produce has nonzero dimensions. -/
theorem static_rejects_zero_size
    (img : ImageLike) (e : StaticError) (direction : Direction) :
    (img.naturalWidth.getD (img.width.getD 0) = 0 ∨
        img.naturalHeight.getD (img.height.getD 0) = 0 →
      generateStatic (.ok img) direction = .error .invalidImage) ∧
    generateStatic (.error e) direction = .error e ∧
    (∀ out, generateStatic (.ok img) direction = .ok out →
      0 < out.width ∧ 0 < out.height) := by
  refine ⟨?_, rfl, ?_⟩
  · intro h0
    have hg : getImageSize img = none := by
      simp only [getImageSize]
      rw [if_pos h0]
    rw [generateStatic_ok, hg]
  · intro out hout
    rw [generateStatic_ok] at hout
    cases hg : getImageSize img with
    | none => rw [hg] at hout; cases hout
    | some wh =>
        obtain ⟨w, h⟩ := wh
        rw [hg] at hout
        have hpos := getImageSize_pos hg
        have hout2 : drawSymmetry (blankCanvas w h) img.content w h direction
            = out := by
          injection hout
        rw [← hout2]
        obtain ⟨hW, hH⟩ := drawSymmetry_dims (blankCanvas w h) img.content w h
          direction
        rw [hW, hH]
        exact hpos

theorem static_rejects_zero_size_witness :
    generateStatic
        (.ok ⟨some 5, some 5, some 0, some 5, blankCanvas 0 0⟩) Direction.left =
      .error .invalidImage ∧
    generateStatic (.error (.decodeError 7) : Except StaticError ImageLike)
        Direction.left =
      .error (.decodeError 7) :=
  ⟨(static_rejects_zero_size ⟨some 5, some 5, some 0, some 5, blankCanvas 0 0⟩
      (.decodeError 7) Direction.left).1 (Or.inl rfl),
   (static_rejects_zero_size ⟨some 5, some 5, some 0, some 5, blankCanvas 0 0⟩
      (.decodeError 7) Direction.left).2.1⟩

/-! ### Claim C7 -/

lemma drawImage_pix_congr {a b : Surface} (s : Surface)
    (sx sy sw sh dx dy : Nat) (dw dh : Int) {x y : Nat}
    (h : a.pix x y = b.pix x y) :
    (drawImage a s sx sy sw sh dx dy dw dh).pix x y =
      (drawImage b s sx sy sw sh dx dy dw dh).pix x y := by
  cases hm : mapCoord sx sw dx dw x <;> cases hm2 : mapCoord sy sh dy dh y <;>
    simp [drawImage, hm, hm2, h]

lemma clearRect_pix_in {c : Surface} {W H x y : Nat} (hx : x < W) (hy : y < H) :
    (clearRect c 0 0 W H).pix x y = (0, 0, 0, 0) := by
  show (if 0 ≤ x ∧ x < 0 + W ∧ 0 ≤ y ∧ y < 0 + H then ((0:Nat), (0:Nat), (0:Nat), (0:Nat))
    else c.pix x y) = (0, 0, 0, 0)
  rw [if_pos (by omega)]

/-- The in-bounds pixels of a `drawSymmetry` result do not depend on the
destination surface's previous contents: `clearRect` runs first. -/
lemma drawSymmetry_pix_ctx (c1 c2 s : Surface) (W H : Nat) (d : Direction)
    (x y : Nat) (hx : x < W) (hy : y < H) :
    (drawSymmetry c1 s W H d).pix x y = (drawSymmetry c2 s W H d).pix x y := by
  have hbase : (clearRect c1 0 0 W H).pix x y = (clearRect c2 0 0 W H).pix x y := by
    rw [clearRect_pix_in hx hy, clearRect_pix_in hx hy]
  cases d
  case left =>
    simp only [drawSymmetry]
    exact drawImage_pix_congr _ _ _ _ _ _ _ _ _
      (drawImage_pix_congr _ _ _ _ _ _ _ _ _ hbase)
  case right =>
    simp only [drawSymmetry]
    exact drawImage_pix_congr _ _ _ _ _ _ _ _ _
      (drawImage_pix_congr _ _ _ _ _ _ _ _ _ hbase)
  case up =>
    simp only [drawSymmetry]
    exact drawImage_pix_congr _ _ _ _ _ _ _ _ _
      (drawImage_pix_congr _ _ _ _ _ _ _ _ _ hbase)
  case down =>
    simp only [drawSymmetry]
    exact drawImage_pix_congr _ _ _ _ _ _ _ _ _
      (drawImage_pix_congr _ _ _ _ _ _ _ _ _ hbase)
  case both =>
    simp only [drawSymmetry]
    exact drawImage_pix_congr _ _ _ _ _ _ _ _ _
      (drawImage_pix_congr _ _ _ _ _ _ _ _ _
        (drawImage_pix_congr _ _ _ _ _ _ _ _ _
          (drawImage_pix_congr _ _ _ _ _ _ _ _ _ hbase)))

/-- Claim C7 (confirmed): the encode loop hands the encoder exactly one entry per
reconstructed frame, in order — no frame dropped, duplicated or reordered;
the `i`-th entry's delay is the `i`-th frame's delay converted by
`max 0 ((delay or 0) * 10)` (hundredths of a second to milliseconds, floored
at zero, hence never negative), and the `i`-th entry's surface carries, on
every in-bounds pixel, the mirror of exactly the `i`-th frame's data. -/
theorem frames_encoded_in_order
    (width height : Nat) (direction : Direction) (ctx0 : Surface)
    (frames : List ResolvedFrame) :
    (encodeLoop width height direction ctx0 frames).length = frames.length ∧
    (∀ i, i < frames.length →
      ((encodeLoop width height direction ctx0 frames).getD i (blankCanvas width height, 0)).2 =
        frameDelayMs ((frames.getD i ⟨[], 0⟩).delay)) ∧
    (∀ i, i < frames.length →
      0 ≤ ((encodeLoop width height direction ctx0 frames).getD i (blankCanvas width height, 0)).2) ∧
    (∀ i, i < frames.length → ∀ x y, x < width → y < height →
      ((encodeLoop width height direction ctx0 frames).getD i (blankCanvas width height, 0)).1.pix x y =
        (drawSymmetry ctx0 (surfOfData (frames.getD i ⟨[], 0⟩).data width height)
          width height direction).pix x y) := by
  induction frames generalizing ctx0 with
  | nil =>
      exact ⟨rfl, fun i hi => absurd hi (by simp),
        fun i hi => absurd hi (by simp), fun i hi => absurd hi (by simp)⟩
  | cons f rest ih =>
      obtain ⟨ihlen, ihdelay, ihnonneg, ihpix⟩ :=
        ih (drawSymmetry ctx0 (surfOfData f.data width height) width height
          direction)
      refine ⟨?_, ?_, ?_, ?_⟩
      · simp [encodeLoop, ihlen]
      · intro i hi
        cases i with
        | zero => rfl
        | succ n => exact ihdelay n (by simpa using hi)
      · intro i hi
        cases i with
        | zero => exact le_max_left 0 _
        | succ n => exact ihnonneg n (by simpa using hi)
      · intro i hi x y hx hy
        cases i with
        | zero => rfl
        | succ n =>
            rw [show ((encodeLoop width height direction ctx0 (f :: rest)).getD
                (n + 1) (blankCanvas width height, 0)) =
              ((encodeLoop width height direction
                  (drawSymmetry ctx0 (surfOfData f.data width height) width
                    height direction) rest).getD n (blankCanvas width height, 0)) from rfl]
            rw [ihpix n (by simpa using hi) x y hx hy]
            exact drawSymmetry_pix_ctx _ ctx0 _ width height direction x y hx hy

theorem frames_encoded_in_order_witness :
    (encodeLoop 1 1 Direction.left (blankCanvas 1 1)
      [⟨[5, 6, 7, 8], 2⟩]).length = 1 ∧
    ((encodeLoop 1 1 Direction.left (blankCanvas 1 1)
        [⟨[5, 6, 7, 8], 2⟩]).getD 0 (blankCanvas 1 1, 0)).2 =
      frameDelayMs ((([⟨[5, 6, 7, 8], 2⟩] : List ResolvedFrame).getD 0
        ⟨[], 0⟩).delay) ∧
    0 ≤ ((encodeLoop 1 1 Direction.left (blankCanvas 1 1)
        [⟨[5, 6, 7, 8], 2⟩]).getD 0 (blankCanvas 1 1, 0)).2 ∧
    ((encodeLoop 1 1 Direction.left (blankCanvas 1 1)
        [⟨[5, 6, 7, 8], 2⟩]).getD 0 (blankCanvas 1 1, 0)).1.pix 0 0 =
      (drawSymmetry (blankCanvas 1 1)
        (surfOfData (([⟨[5, 6, 7, 8], 2⟩] : List ResolvedFrame).getD 0
          ⟨[], 0⟩).data 1 1) 1 1 Direction.left).pix 0 0 :=
  ⟨(frames_encoded_in_order 1 1 Direction.left (blankCanvas 1 1)
      [⟨[5, 6, 7, 8], 2⟩]).1,
   (frames_encoded_in_order 1 1 Direction.left (blankCanvas 1 1)
      [⟨[5, 6, 7, 8], 2⟩]).2.1 0 (by decide),
   (frames_encoded_in_order 1 1 Direction.left (blankCanvas 1 1)
      [⟨[5, 6, 7, 8], 2⟩]).2.2.1 0 (by decide),
   (frames_encoded_in_order 1 1 Direction.left (blankCanvas 1 1)
      [⟨[5, 6, 7, 8], 2⟩]).2.2.2 0 (by decide) 0 0 (by decide) (by decide)⟩

end Symmetry
